import Mathlib

/-!
# Bus route simulation: a shallow embedding of `Source/Main.cpp`

The program keeps its simulation state in global variables and updates them
once per processed frame inside the main loop (`// LOGIKA`, lines 355-410).
Here the globals become the fields of `State`, and one processed frame
becomes the function `tick`.

Modelling decisions:

* `float` values (`dt`, `busProgress`, `stationTimer`, coordinates) are exact
  rationals; rounding is not modelled.
* `int` values are mathematical integers; `%` and `/` are the truncating
  `Int.tmod` and `Int.tdiv` of C++.  Signed overflow is not modelled:
  `passengers` is bounded on every reachable state and `totalFines` grows by
  at most 50 per completed segment.
* The three latches `leftMousePressed`, `rightMousePressed`, `keyKPressed`
  start `false`, are set only by the GLFW callbacks and are cleared at the end
  of every processed frame (lines 408-410).  Their values when the logic runs
  are therefore exactly what the callbacks delivered since the previous
  processed frame, and they are fields of the per-frame `Input`.
* `rand()` is an external source of non-negative integers: the value it would
  return during a frame is the field `rand` of `Input`.
* `sqrt` and `sin` come from the C library; the geometry takes them as
  parameters `sqrtf sinf : ℚ → ℚ`.
-/

namespace BusSim

/-! ## Constants (lines 12-16) -/

/-- Line 14: `const int NUM_STATIONS = 10;` -/
def NUM_STATIONS : Int := 10

/-- Line 15: `const float BUS_SPEED = 0.15f;` -/
def BUS_SPEED : ℚ := 15 / 100

/-- Line 16: `const float STATION_WAIT_TIME = 10.0f;` -/
def STATION_WAIT_TIME : ℚ := 10

/-- Lines 12-13: `FRAME_TIME = 1.0f / TARGET_FPS` with `TARGET_FPS = 75`. -/
def FRAME_TIME : ℚ := 1 / 75

/-! ## Simulation state (lines 31-39) -/

/-- The global simulation variables of lines 31-39. -/
structure State where
  currentStation : Int
  nextStation : Int
  busProgress : ℚ
  busAtStation : Bool
  stationTimer : ℚ
  passengers : Int
  isInspectorInBus : Bool
  totalFines : Int
  inspectorExitStation : Int
deriving DecidableEq

/-- The initial values written at lines 31-39. -/
def init : State where
  currentStation := 0
  nextStation := 1
  busProgress := 0
  busAtStation := true
  stationTimer := 0
  passengers := 0
  isInspectorInBus := false
  totalFines := 0
  inspectorExitStation := -1

/-- What one processed frame receives from outside: the elapsed time, the
three input latches, and the value `rand()` returns if it is called. -/
structure Input where
  dt : ℚ
  leftMousePressed : Bool
  rightMousePressed : Bool
  keyKPressed : Bool
  rand : Nat
deriving DecidableEq

/-- A frame with no input latch set. -/
def idle (dt : ℚ) (rand : Nat) : Input :=
  ⟨dt, false, false, false, rand⟩

/-! ## One frame of simulation logic (lines 355-406) -/

/-- Lines 358-363: left click, a passenger boards unless the bus holds 50. -/
def boardPassenger (s : State) : State :=
  if s.passengers < 50 then { s with passengers := s.passengers + 1 } else s

/-- Lines 364-369: right click, a passenger leaves unless the count is 0. -/
def deboardPassenger (s : State) : State :=
  if s.passengers > 0 then { s with passengers := s.passengers - 1 } else s

/-- Lines 372-374: the inspector boards. -/
def inspectorBoards (s : State) : State :=
  { s with
    isInspectorInBus := true
    passengers := s.passengers + 1
    inspectorExitStation := Int.tmod (s.currentStation + 1) NUM_STATIONS }

/-- Lines 379-381: the bus leaves the station. -/
def depart (s : State) : State :=
  { s with busAtStation := false, stationTimer := 0, busProgress := 0 }

/-- Lines 356-383: the `if (busAtStation)` branch. -/
def atStationStep (s : State) (inp : Input) : State :=
  let s := { s with stationTimer := s.stationTimer + inp.dt }
  let s := if inp.leftMousePressed then boardPassenger s else s
  let s := if inp.rightMousePressed then deboardPassenger s else s
  let s := if inp.keyKPressed && !s.isInspectorInBus then inspectorBoards s else s
  if s.stationTimer ≥ STATION_WAIT_TIME then depart s else s

/-- Line 398: `maxFines = passengersWithoutInspector > 0 ? passengersWithoutInspector : 0`. -/
def maxFines (passengersWithoutInspector : Int) : Int :=
  if passengersWithoutInspector > 0 then passengersWithoutInspector else 0

/-- Line 399: `fines = (maxFines > 0) ? (rand() % (maxFines + 1)) : 0`. -/
def fines (passengersWithoutInspector : Int) (rand : Nat) : Int :=
  if maxFines passengersWithoutInspector > 0 then
    Int.tmod (rand : Int) (maxFines passengersWithoutInspector + 1)
  else 0

/-- Lines 396-403: the inspector leaves and fines are drawn. -/
def inspectorExits (s : State) (rand : Nat) : State :=
  let passengers := s.passengers - 1
  let passengersWithoutInspector := passengers
  { s with
    passengers := passengers
    totalFines := s.totalFines + fines passengersWithoutInspector rand
    isInspectorInBus := false
    inspectorExitStation := -1 }

/-- Lines 388-404: the bus reaches `nextStation`. -/
def arrive (s : State) (rand : Nat) : State :=
  let s := { s with
    busProgress := 1
    busAtStation := true
    stationTimer := 0
    currentStation := s.nextStation }
  let s := { s with nextStation := Int.tmod (s.currentStation + 1) NUM_STATIONS }
  if s.isInspectorInBus && s.currentStation == s.inspectorExitStation then
    inspectorExits s rand
  else s

/-- Lines 386-405: the `else` branch, the bus is between two stations. -/
def transitStep (s : State) (inp : Input) : State :=
  let s := { s with busProgress := s.busProgress + BUS_SPEED * inp.dt }
  if s.busProgress ≥ 1 then arrive s inp.rand else s

/-- Lines 355-406: the simulation logic of one processed frame. -/
def tick (s : State) (inp : Input) : State :=
  if s.busAtStation then atStationStep s inp else transitStep s inp

/-- The state after a finite sequence of processed frames. -/
def run (s : State) (inputs : List Input) : State :=
  inputs.foldl tick s

/-- Sum of the elapsed times of a sequence of frames. -/
def totalDt (inputs : List Input) : ℚ :=
  (inputs.map Input.dt).sum

/-- Lines 491-492: the two digits shown for the passenger count. -/
def passengerDigits (s : State) : Int × Int :=
  (Int.tdiv s.passengers 10, Int.tmod s.passengers 10)

/-- Lines 274-278: `unsigned int numberTextures[10]`; an index is inside the
array when it lies in `0..9`. -/
def validDigitIndex (d : Int) : Bool :=
  decide (0 ≤ d) && decide (d < 10)

/-! ## Geometry (lines 19-27, 68-137, 451-480) -/

/-- Lines 19-22: `struct Vec2 { float x, y; }`. -/
structure Vec2 where
  x : ℚ
  y : ℚ
deriving DecidableEq

/-- Lines 68-70. -/
def lerp (a b : Vec2) (t : ℚ) : Vec2 :=
  ⟨a.x + (b.x - a.x) * t, a.y + (b.y - a.y) * t⟩

/-- Lines 72-78. -/
def bezierQuadratic (p0 p1 p2 : Vec2) (t : ℚ) : Vec2 :=
  let u := 1 - t
  ⟨u * u * p0.x + 2 * u * t * p1.x + t * t * p2.x,
    u * u * p0.y + 2 * u * t * p1.y + t * t * p2.y⟩

/-- Lines 84-93: `stations[i].position` after `initStations`.  An index outside
`0..9` is outside the array; the model returns the default `Vec2(0, 0)`. -/
def stationPosition (i : Int) : Vec2 :=
  match i with
  | 0 => ⟨-65 / 100, 55 / 100⟩
  | 1 => ⟨-25 / 100, 65 / 100⟩
  | 2 => ⟨35 / 100, 60 / 100⟩
  | 3 => ⟨70 / 100, 25 / 100⟩
  | 4 => ⟨75 / 100, -15 / 100⟩
  | 5 => ⟨45 / 100, -55 / 100⟩
  | 6 => ⟨0, -65 / 100⟩
  | 7 => ⟨-50 / 100, -50 / 100⟩
  | 8 => ⟨-75 / 100, -10 / 100⟩
  | 9 => ⟨-70 / 100, 20 / 100⟩
  | _ => ⟨0, 0⟩

/-- The values a control-point computation produces.  `divisors` is not a
program variable: it records, in order, every divisor the computation divided
by. -/
structure Curve where
  dist : ℚ
  normal : Vec2
  curvature : ℚ
  curveDir : ℚ
  midPoint : Vec2
  controlPoint : Vec2
  divisors : List ℚ
deriving DecidableEq

/-- Lines 109-128: the control point of segment `i` as `setupPathVAO` computes it
from the endpoints `p0`, `p2`. -/
def pathControl (sqrtf sinf : ℚ → ℚ) (p0 p2 : Vec2) (i : Int) : Curve :=
  let dir : Vec2 := ⟨p2.x - p0.x, p2.y - p0.y⟩
  let dist : ℚ := sqrtf (dir.x * dir.x + dir.y * dir.y)
  let normal : Vec2 := ⟨-dir.y, dir.x⟩
  let normal : Vec2 := if dist > 1 / 10000 then ⟨normal.x / dist, normal.y / dist⟩ else normal
  let curvature : ℚ := 12 / 100 + 8 / 100 * sinf ((i : ℚ) * (7 / 10))
  let curveDir : ℚ := if Int.tmod i 3 = 0 then -1 else 1
  let midPoint : Vec2 := ⟨(p0.x + p2.x) / 2, (p0.y + p2.y) / 2⟩
  let controlPoint : Vec2 :=
    ⟨midPoint.x + normal.x * curvature * curveDir, midPoint.y + normal.y * curvature * curveDir⟩
  { dist := dist
    normal := normal
    curvature := curvature
    curveDir := curveDir
    midPoint := midPoint
    controlPoint := controlPoint
    divisors := (if dist > 1 / 10000 then [dist, dist] else []) ++ [2, 2] }

/-- Lines 461-477: the control point as the bus placement computes it from the
endpoints `p0`, `p2` and `prevIdx`. -/
def busControl (sqrtf sinf : ℚ → ℚ) (p0 p2 : Vec2) (prevIdx : Int) : Curve :=
  let dir : Vec2 := ⟨p2.x - p0.x, p2.y - p0.y⟩
  let dist : ℚ := sqrtf (dir.x * dir.x + dir.y * dir.y)
  let normal : Vec2 := ⟨-dir.y, dir.x⟩
  let normal : Vec2 := if dist > 1 / 10000 then ⟨normal.x / dist, normal.y / dist⟩ else normal
  let curvature : ℚ := 12 / 100 + 8 / 100 * sinf ((prevIdx : ℚ) * (7 / 10))
  let curveDir : ℚ := if Int.tmod prevIdx 3 = 0 then -1 else 1
  let midPoint : Vec2 := ⟨(p0.x + p2.x) / 2, (p0.y + p2.y) / 2⟩
  let controlPoint : Vec2 :=
    ⟨midPoint.x + normal.x * curvature * curveDir, midPoint.y + normal.y * curvature * curveDir⟩
  { dist := dist
    normal := normal
    curvature := curvature
    curveDir := curveDir
    midPoint := midPoint
    controlPoint := controlPoint
    divisors := (if dist > 1 / 10000 then [dist, dist] else []) ++ [2, 2] }

/-- Lines 104-136: the 62 floats `setupPathVAO` pushes for segment `i`, the
coordinates of the 31 points `bezierQuadratic(p0, controlPoint, p2, j / 30)`. -/
def segmentVertices (sqrtf sinf : ℚ → ℚ) (i : Nat) : List ℚ :=
  let nextIdx : Int := Int.tmod ((i : Int) + 1) NUM_STATIONS
  let p0 := stationPosition i
  let p2 := stationPosition nextIdx
  let controlPoint := (pathControl sqrtf sinf p0 p2 i).controlPoint
  let segments : Nat := 30
  (List.range (segments + 1)).flatMap fun j =>
    let t : ℚ := (j : ℚ) / (segments : ℚ)
    let point := bezierQuadratic p0 controlPoint p2 t
    [point.x, point.y]

/-- Lines 101-137: the contents of `pathVertices` after the loop over the ten
segments. -/
def pathVertices (sqrtf sinf : ℚ → ℚ) : List ℚ :=
  (List.range 10).flatMap (segmentVertices sqrtf sinf)

/-- Vertex `j` of the line strip drawn for segment `i` (line 433:
`glDrawArrays(GL_LINE_STRIP, i * 31, 31)`, two floats per vertex). -/
def pathVertex (sqrtf sinf : ℚ → ℚ) (i j : Nat) : Option Vec2 :=
  match (pathVertices sqrtf sinf)[2 * (i * 31 + j)]?,
    (pathVertices sqrtf sinf)[2 * (i * 31 + j) + 1]? with
  | some x, some y => some ⟨x, y⟩
  | _, _ => none

/-- Lines 451-480: where the bus is drawn. -/
def busPos (sqrtf sinf : ℚ → ℚ) (s : State) : Vec2 :=
  if s.busAtStation then
    stationPosition s.currentStation
  else
    let prevIdx := s.currentStation
    let nextIdx := s.nextStation
    let p0 := stationPosition prevIdx
    let p2 := stationPosition nextIdx
    let controlPoint := (busControl sqrtf sinf p0 p2 prevIdx).controlPoint
    bezierQuadratic p0 controlPoint p2 s.busProgress

/-- A rational stand-in for `sin`, exact at `0`; it is used only where a concrete
function is needed to evaluate the geometry. -/
def sinTaylor (x : ℚ) : ℚ :=
  x - x ^ 3 / 6 + x ^ 5 / 120

/-! ## Concrete frames used to evaluate the simulation -/

/-- A frame of minimal length in which the left mouse button was pressed. -/
def leftClick : Input := ⟨FRAME_TIME, true, false, false, 0⟩

/-- A frame of minimal length in which the right mouse button was pressed. -/
def rightClick : Input := ⟨FRAME_TIME, false, true, false, 0⟩

/-- A frame of minimal length in which the key K was pressed. -/
def pressK : Input := ⟨FRAME_TIME, false, false, true, 0⟩

/-- The inspector boards an empty bus, a right click removes the only
"passenger", the dwell ends and the bus reaches station 1. -/
def underflowInputs : List Input :=
  [pressK, rightClick, idle 10 0, idle 7 0]

/-- Fifty passengers board, then the inspector boards the full bus. -/
def overflowInputs : List Input :=
  List.replicate 50 leftClick ++ [pressK]

/-! ## History variable for the inspector's boarding station -/

/-- One frame, together with a history variable that is not part of the program:
the station at which the inspector now aboard boarded.  A boarding is observed
as `isInspectorInBus` going from `false` to `true` during the frame; the station
is `currentStation` as the frame starts, the one line 375 prints. -/
def tickTracked (g : State × Int) (inp : Input) : State × Int :=
  (tick g.1 inp,
    if !g.1.isInspectorInBus && (tick g.1 inp).isInspectorInBus then g.1.currentStation
    else g.2)

/-- The tracked run from the initial state; the history variable starts at `-1`. -/
def runTracked (inputs : List Input) : State × Int :=
  inputs.foldl tickTracked (init, -1)

/-- The inspector boards an empty bus, a right click removes the seat the
inspector occupies, and the dwell ends: the bus is on its way to station 1 with
the inspector aboard and `passengers = 0`. -/
def emptyBusWithInspector : List Input :=
  [pressK, rightClick, idle 10 0]

/-- The bus on its way from station 0 to station 1 with the inspector and five
passengers aboard. -/
def inspectorRide : State :=
  { init with
    busAtStation := false
    passengers := 6
    isInspectorInBus := true
    inspectorExitStation := 1 }

/-! ## Predicates used in the proofs -/

/-- Integer facts that hold in every state reachable from `init`. -/
structure Inv (s : State) : Prop where
  cur_lo : 0 ≤ s.currentStation
  cur_hi : s.currentStation ≤ 9
  next_eq : s.nextStation = Int.tmod (s.currentStation + 1) NUM_STATIONS
  in_exit : s.isInspectorInBus = true → s.inspectorExitStation = s.nextStation
  out_exit : s.isInspectorInBus = false → s.inspectorExitStation = -1
  in_pass : s.isInspectorInBus = true → 0 ≤ s.passengers ∧ s.passengers ≤ 51
  out_pass : s.isInspectorInBus = false → -1 ≤ s.passengers ∧ s.passengers ≤ 50
  fines_lo : 0 ≤ s.totalFines

/-- Where `busProgress` lies in the two modes of the bus. -/
def ProgressInv (s : State) : Prop :=
  (s.busAtStation = true → s.busProgress = 0 ∨ s.busProgress = 1) ∧
    (s.busAtStation = false → 0 ≤ s.busProgress ∧ s.busProgress < 1)

/-- Where the bus is in an inspector round trip that started at station `st` with
`p` passengers and `f0` fines: either the inspector is still aboard and the bus
has not yet reached the next station, or the inspector has left. -/
def RoundTrip (st p f0 : Int) (s : State) : Prop :=
  (s.currentStation = st ∧ s.nextStation = Int.tmod (st + 1) NUM_STATIONS ∧
      s.isInspectorInBus = true ∧ s.passengers = p + 1 ∧
      s.inspectorExitStation = Int.tmod (st + 1) NUM_STATIONS ∧ s.totalFines = f0) ∨
    (s.isInspectorInBus = false ∧ s.passengers = p ∧ s.inspectorExitStation = -1 ∧
      f0 ≤ s.totalFines ∧ s.totalFines ≤ f0 + p)

/-! # Theorems -/


theorem tmod_succ_range (c : Int) (h0 : 0 ≤ c) (h9 : c ≤ 9) :
    0 ≤ Int.tmod (c + 1) NUM_STATIONS ∧ Int.tmod (c + 1) NUM_STATIONS ≤ 9 ∧
      Int.tmod (c + 1) NUM_STATIONS ≠ c := by
  have h : Int.tmod (c + 1) NUM_STATIONS = (c + 1) % 10 :=
    Int.tmod_eq_emod (by omega) (by decide)
  rw [h]; omega

theorem maxFines_nonneg (r : Int) : 0 ≤ maxFines r := by
  unfold maxFines; split_ifs <;> omega

theorem fines_nonneg (r : Int) (rand : Nat) : 0 ≤ fines r rand := by
  have hm := maxFines_nonneg r
  unfold fines
  split_ifs with h
  · rw [Int.tmod_eq_emod (by omega) (by omega)]
    exact Int.emod_nonneg _ (by omega)
  · exact le_refl 0

theorem fines_le (r : Int) (rand : Nat) : fines r rand ≤ maxFines r := by
  have hm := maxFines_nonneg r
  unfold fines
  split_ifs with h
  · rw [Int.tmod_eq_emod (by omega) (by omega)]
    have := Int.emod_lt_of_pos (rand : Int) (show 0 < maxFines r + 1 by omega)
    omega
  · omega

theorem inv_init : Inv init := by
  constructor <;> simp [init, NUM_STATIONS]
  decide

theorem inv_boardPassenger (s : State) (h : Inv s) : Inv (boardPassenger s) := by
  obtain ⟨h1, h2, h3, h4, h5, h6, h7, h8⟩ := h
  unfold boardPassenger
  split_ifs with hp
  · exact ⟨h1, h2, h3, h4, h5, fun hi => by have := h6 hi; dsimp only; omega,
      fun hi => by have := h7 hi; dsimp only; omega, h8⟩
  · exact ⟨h1, h2, h3, h4, h5, h6, h7, h8⟩

theorem inv_deboardPassenger (s : State) (h : Inv s) : Inv (deboardPassenger s) := by
  obtain ⟨h1, h2, h3, h4, h5, h6, h7, h8⟩ := h
  unfold deboardPassenger
  split_ifs with hp
  · exact ⟨h1, h2, h3, h4, h5, fun hi => by have := h6 hi; dsimp only; omega,
      fun hi => by have := h7 hi; dsimp only; omega, h8⟩
  · exact ⟨h1, h2, h3, h4, h5, h6, h7, h8⟩

theorem inv_inspectorBoards (s : State) (h : Inv s) (hout : s.isInspectorInBus = false) :
    Inv (inspectorBoards s) := by
  obtain ⟨h1, h2, h3, h4, h5, h6, h7, h8⟩ := h
  have := h7 hout
  exact ⟨h1, h2, h3, fun _ => h3.symm, fun hi => by simp [inspectorBoards] at hi,
    fun _ => by dsimp only [inspectorBoards]; omega,
    fun hi => by simp [inspectorBoards] at hi, h8⟩

theorem inv_timer (s : State) (h : Inv s) (a : Bool) (t q : ℚ) :
    Inv { s with busAtStation := a, stationTimer := t, busProgress := q } := by
  obtain ⟨h1, h2, h3, h4, h5, h6, h7, h8⟩ := h
  exact ⟨h1, h2, h3, h4, h5, h6, h7, h8⟩

theorem inv_ite (c : Prop) [Decidable c] (a b : State) (ha : c → Inv a) (hb : ¬ c → Inv b) :
    Inv (if c then a else b) := by
  split_ifs with h
  · exact ha h
  · exact hb h

theorem inv_atStationStep (s : State) (inp : Input) (h : Inv s) :
    Inv (atStationStep s inp) := by
  have h0 : Inv { s with stationTimer := s.stationTimer + inp.dt } :=
    inv_timer s h s.busAtStation _ s.busProgress
  refine inv_ite _ _ _ (fun _ => inv_timer _ ?_ false 0 0) (fun _ => ?_) <;>
    exact inv_ite _ _ _
      (fun hk => inv_inspectorBoards _
        (inv_ite _ _ _ (fun _ => inv_deboardPassenger _
          (inv_ite _ _ _ (fun _ => inv_boardPassenger _ h0) (fun _ => h0)))
          (fun _ => inv_ite _ _ _ (fun _ => inv_boardPassenger _ h0) (fun _ => h0)))
        (by simp at hk; exact hk.2))
      (fun _ => inv_ite _ _ _ (fun _ => inv_deboardPassenger _
          (inv_ite _ _ _ (fun _ => inv_boardPassenger _ h0) (fun _ => h0)))
          (fun _ => inv_ite _ _ _ (fun _ => inv_boardPassenger _ h0) (fun _ => h0)))

theorem inv_transitStep (s : State) (inp : Input) (h : Inv s) :
    Inv (transitStep s inp) := by
  obtain ⟨h1, h2, h3, h4, h5, h6, h7, h8⟩ := h
  obtain ⟨c, n, bp, a, st, p, ins, tf, ex⟩ := s
  obtain ⟨dt, l, r, k, rnd⟩ := inp
  dsimp only at h1 h2 h3 h4 h5 h6 h7 h8
  have hr := tmod_succ_range c h1 h2
  rw [← h3] at hr
  have hr2 := tmod_succ_range n hr.1 hr.2.1
  have hf := fines_nonneg (p - 1) rnd
  cases ins <;>
    simp only [transitStep, arrive, inspectorExits,
      Bool.false_eq_true, if_false, if_true, Bool.and_true, Bool.and_false, Bool.not_true,
      Bool.not_false, Bool.true_and, Bool.false_and] <;>
    (constructor <;> dsimp only <;> split_ifs <;> simp_all <;> omega)

theorem inv_tick (s : State) (inp : Input) (h : Inv s) : Inv (tick s inp) := by
  unfold tick
  split_ifs
  · exact inv_atStationStep s inp h
  · exact inv_transitStep s inp h

theorem run_nil (s : State) : run s [] = s := rfl

theorem run_cons (s : State) (i : Input) (is : List Input) :
    run s (i :: is) = run (tick s i) is := rfl

theorem run_append (s : State) (xs ys : List Input) :
    run s (xs ++ ys) = run (run s xs) ys := by
  simp [run, List.foldl_append]

theorem run_snoc (s : State) (xs : List Input) (i : Input) :
    run s (xs ++ [i]) = tick (run s xs) i := by
  rw [run_append]; rfl

theorem totalDt_nil : totalDt [] = 0 := rfl

theorem totalDt_cons (i : Input) (is : List Input) :
    totalDt (i :: is) = i.dt + totalDt is := by
  simp [totalDt]

theorem totalDt_nonneg (inputs : List Input) (h : ∀ i ∈ inputs, 0 ≤ i.dt) :
    0 ≤ totalDt inputs := by
  induction inputs with
  | nil => simp [totalDt]
  | cons i is ih =>
    rw [totalDt_cons]
    have h1 := h i (List.mem_cons_self _ _)
    have h2 := ih (fun j hj => h j (List.mem_cons_of_mem _ hj))
    linarith

theorem inv_run (inputs : List Input) (s : State) (h : Inv s) : Inv (run s inputs) := by
  induction inputs generalizing s with
  | nil => exact h
  | cons i is ih => exact ih (tick s i) (inv_tick s i h)

/-- C2: in every state reachable from the initial state by any finite sequence of
frames (any latches, any `dt`, any random draws), `nextStation` equals
`(currentStation + 1) % 10` and both station indices lie in `0..9`. -/
theorem C2_next_station_is_successor (inputs : List Input) :
    (run init inputs).nextStation
        = Int.tmod ((run init inputs).currentStation + 1) NUM_STATIONS ∧
      0 ≤ (run init inputs).currentStation ∧ (run init inputs).currentStation ≤ 9 ∧
      0 ≤ (run init inputs).nextStation ∧ (run init inputs).nextStation ≤ 9 := by
  have h := inv_run inputs init inv_init
  have hr := tmod_succ_range _ h.cur_lo h.cur_hi
  rw [← h.next_eq] at hr
  exact ⟨h.next_eq, h.cur_lo, h.cur_hi, hr.1, hr.2.1⟩

theorem run_leftClicks (n : Nat) (hn : n ≤ 50) :
    run init (List.replicate n leftClick)
      = { init with passengers := n, stationTimer := n * FRAME_TIME } := by
  induction n with
  | zero => simp [run, init]
  | succ k ih =>
    rw [List.replicate_succ', run_snoc, ih (by omega)]
    have hk : (k : Int) < 50 := by omega
    have ht : ¬ ((k : ℚ) * FRAME_TIME + FRAME_TIME ≥ STATION_WAIT_TIME) := by
      have : (k : ℚ) ≤ 49 := by exact_mod_cast (show k ≤ 49 by omega)
      unfold FRAME_TIME STATION_WAIT_TIME
      linarith
    simp [tick, atStationStep, init, leftClick, boardPassenger, hk, ht]
    ring

/-- C1 (evaluation at the failing inputs): the passenger count leaves `[0, 50]` on
states reachable from the initial state.  After `underflowInputs` it is `-1`;
after `overflowInputs` it is `51`. -/
theorem C1_passengers_leave_range :
    (run init underflowInputs).passengers = -1 ∧
      (run init overflowInputs).passengers = 51 := by
  constructor
  · simp [run, underflowInputs, pressK, rightClick, idle, tick, atStationStep, transitStep,
      init, boardPassenger, deboardPassenger, inspectorBoards, depart, arrive, inspectorExits,
      fines, maxFines, STATION_WAIT_TIME, BUS_SPEED, NUM_STATIONS, FRAME_TIME,
      show Int.tmod 1 10 = 1 from rfl]
    norm_num
  · rw [overflowInputs, run_snoc, run_leftClicks 50 (le_refl 50)]
    simp [tick, atStationStep, init, pressK, inspectorBoards, STATION_WAIT_TIME, FRAME_TIME]
    norm_num

theorem transit_run (inputs : List Input) (s : State) (hT : s.busAtStation = false)
    (hdt : ∀ i ∈ inputs, 0 ≤ i.dt) (hlt : s.busProgress + BUS_SPEED * totalDt inputs < 1) :
    run s inputs = { s with busProgress := s.busProgress + BUS_SPEED * totalDt inputs } := by
  induction inputs generalizing s with
  | nil => simp [run, totalDt]
  | cons i is ih =>
    have hi := hdt i (List.mem_cons_self _ _)
    have his : ∀ j ∈ is, 0 ≤ j.dt := fun j hj => hdt j (List.mem_cons_of_mem _ hj)
    have hpos := totalDt_nonneg is his
    rw [totalDt_cons] at hlt
    have hlt1 : ¬ (s.busProgress + BUS_SPEED * i.dt ≥ 1) := by
      unfold BUS_SPEED at hlt ⊢
      linarith
    have hstep : tick s i = { s with busProgress := s.busProgress + BUS_SPEED * i.dt } := by
      simp only [tick, hT, transitStep]
      simp [hlt1]
    rw [run_cons, hstep,
      ih { s with busProgress := s.busProgress + BUS_SPEED * i.dt } hT his
        (by dsimp only; linarith),
      totalDt_cons]
    dsimp only
    congr 1
    ring

/-- C3: from a Transit state with `busProgress = 0` and
`nextStation = (currentStation + 1) % 10`, frames with `dt ≥ 0` whose cumulative
`0.15 * Σdt` is below 1 change nothing but `busProgress`, which is exactly
`0.15 * Σdt`; the first frame that brings `0.15 * Σdt` to 1 or more puts the bus
AtStation with `busProgress = 1`, `stationTimer = 0`, `currentStation` equal to
the old `nextStation` and `nextStation` advanced by one modulo 10. -/
theorem C3_transit_then_arrival (s : State) (inputs : List Input)
    (hT : s.busAtStation = false) (hP : s.busProgress = 0)
    (hN : s.nextStation = Int.tmod (s.currentStation + 1) NUM_STATIONS)
    (hdt : ∀ i ∈ inputs, 0 ≤ i.dt) (hlt : BUS_SPEED * totalDt inputs < 1) :
    run s inputs = { s with busProgress := BUS_SPEED * totalDt inputs } ∧
      ∀ last : Input, 0 ≤ last.dt → 1 ≤ BUS_SPEED * (totalDt inputs + last.dt) →
        (run s (inputs ++ [last])).busAtStation = true ∧
        (run s (inputs ++ [last])).busProgress = 1 ∧
        (run s (inputs ++ [last])).stationTimer = 0 ∧
        (run s (inputs ++ [last])).currentStation = s.nextStation ∧
        (run s (inputs ++ [last])).currentStation
          = Int.tmod (s.currentStation + 1) NUM_STATIONS ∧
        (run s (inputs ++ [last])).nextStation
          = Int.tmod (s.nextStation + 1) NUM_STATIONS := by
  have hrun := transit_run inputs s hT hdt (by rw [hP]; linarith)
  rw [hP, zero_add] at hrun
  refine ⟨hrun, fun last _ hge => ?_⟩
  have hge1 : BUS_SPEED * totalDt inputs + BUS_SPEED * last.dt ≥ 1 := by
    rw [← mul_add]; exact hge
  rw [run_snoc, hrun]
  simp only [tick, hT, transitStep]
  simp only [Bool.false_eq_true, if_false, hge1, if_true, arrive, inspectorExits]
  rw [← hN]
  split_ifs <;> simp

theorem idle_flags (dt : ℚ) (r : Nat) :
    (idle dt r).leftMousePressed = false ∧ (idle dt r).rightMousePressed = false ∧
      (idle dt r).keyKPressed = false :=
  ⟨rfl, rfl, rfl⟩

/-- C3 at a concrete input: leaving station 0, two frames of 3 s keep the bus in
Transit at progress 0.9 and a further frame of 1 s brings it to station 1. -/
theorem C3_transit_then_arrival_witness :
    run (depart init) [idle 3 0, idle 3 0]
        = { depart init with busProgress := BUS_SPEED * totalDt [idle 3 0, idle 3 0] } ∧
      (run (depart init) ([idle 3 0, idle 3 0] ++ [idle 1 0])).busAtStation = true ∧
      (run (depart init) ([idle 3 0, idle 3 0] ++ [idle 1 0])).busProgress = 1 ∧
      (run (depart init) ([idle 3 0, idle 3 0] ++ [idle 1 0])).currentStation = 1 :=
  have h := C3_transit_then_arrival (depart init) [idle 3 0, idle 3 0] rfl rfl (by decide)
    (by simp [idle]) (by norm_num [BUS_SPEED, totalDt, idle])
  have h2 := h.2 (idle 1 0) (by norm_num [idle]) (by norm_num [BUS_SPEED, totalDt, idle])
  ⟨h.1, h2.1, h2.2.1, h2.2.2.2.1⟩

theorem fines_le_self (r : Int) (rand : Nat) (hr : 0 ≤ r) : fines r rand ≤ r := by
  have h := fines_le r rand
  unfold maxFines at h
  split_ifs at h <;> omega

theorem roundTrip_tick (st p f0 : Int) (hp : 0 ≤ p) (s : State) (i : Input)
    (hidle : i.leftMousePressed = false ∧ i.rightMousePressed = false ∧
      i.keyKPressed = false)
    (h : RoundTrip st p f0 s) : RoundTrip st p f0 (tick s i) := by
  have hf0 := fines_nonneg p i.rand
  have hf1 := fines_le_self p i.rand hp
  obtain ⟨c, n, bp, a, t, ps, ins, tf, ex⟩ := s
  obtain ⟨hl, hr, hk⟩ := hidle
  rcases h with ⟨h1, h2, h3, h4, h5, h6⟩ | ⟨h1, h2, h3, h4, h5⟩
  · dsimp only at h1 h2 h3 h4 h5 h6
    subst h1 h2 h3 h4 h5 h6
    cases a
    · simp only [tick, transitStep, arrive, inspectorExits, Bool.false_eq_true, if_false]
      split_ifs with hx hy
      · right
        have e : p + 1 - 1 = p := by omega
        refine ⟨rfl, e, rfl, ?_, ?_⟩ <;> dsimp only <;> rw [e] <;> omega
      · simp at hy
      · left
        exact ⟨rfl, rfl, rfl, rfl, rfl, rfl⟩
    · simp only [tick, atStationStep, hl, hr, hk, depart, if_true, Bool.false_eq_true,
        if_false, Bool.false_and]
      split_ifs
      · left; exact ⟨rfl, rfl, rfl, rfl, rfl, rfl⟩
      · left; exact ⟨rfl, rfl, rfl, rfl, rfl, rfl⟩
  · dsimp only at h1 h2 h3 h4 h5
    subst h1 h2 h3
    cases a
    · simp only [tick, transitStep, arrive, inspectorExits, Bool.false_eq_true, if_false,
        Bool.false_and]
      split_ifs
      · right; exact ⟨rfl, rfl, rfl, h4, h5⟩
      · right; exact ⟨rfl, rfl, rfl, h4, h5⟩
    · simp only [tick, atStationStep, hl, hr, hk, depart, if_true, Bool.false_eq_true,
        if_false, Bool.false_and]
      split_ifs
      · right; exact ⟨rfl, rfl, rfl, h4, h5⟩
      · right; exact ⟨rfl, rfl, rfl, h4, h5⟩

theorem roundTrip_run (st p f0 : Int) (hp : 0 ≤ p) (rest : List Input) (s : State)
    (hidle : ∀ i ∈ rest, i.leftMousePressed = false ∧ i.rightMousePressed = false ∧
      i.keyKPressed = false)
    (h : RoundTrip st p f0 s) : RoundTrip st p f0 (run s rest) := by
  induction rest generalizing s with
  | nil => exact h
  | cons i is ih =>
    exact ih (tick s i) (fun j hj => hidle j (List.mem_cons_of_mem _ hj))
      (roundTrip_tick st p f0 hp s i (hidle i (List.mem_cons_self _ _)) h)

theorem inspector_boarding_tick (s : State) (k : Input)
    (hA : s.busAtStation = true) (hins : s.isInspectorInBus = false)
    (hk : k.keyKPressed = true) (hl : k.leftMousePressed = false)
    (hr : k.rightMousePressed = false) :
    (tick s k).currentStation = s.currentStation ∧ (tick s k).nextStation = s.nextStation ∧
      (tick s k).isInspectorInBus = true ∧ (tick s k).passengers = s.passengers + 1 ∧
      (tick s k).inspectorExitStation = Int.tmod (s.currentStation + 1) NUM_STATIONS ∧
      (tick s k).totalFines = s.totalFines ∧
      ((tick s k).busAtStation = true ∧ (tick s k).stationTimer = s.stationTimer + k.dt ∧
          s.stationTimer + k.dt < STATION_WAIT_TIME ∨
        (tick s k).busAtStation = false ∧ (tick s k).busProgress = 0) := by
  simp only [tick, hA, atStationStep, hl, hr, hk, hins, depart, inspectorBoards, if_true,
    Bool.false_eq_true, if_false, Bool.not_false, Bool.and_self]
  split_ifs with h
  · exact ⟨rfl, rfl, rfl, rfl, rfl, rfl, Or.inr ⟨rfl, rfl⟩⟩
  · exact ⟨rfl, rfl, rfl, rfl, rfl, rfl, Or.inl ⟨rfl, rfl, lt_of_not_ge h⟩⟩

theorem arrive_fields (s : State) (rand : Nat) :
    (arrive s rand).busAtStation = true ∧ (arrive s rand).stationTimer = 0 ∧
      (arrive s rand).currentStation = s.nextStation := by
  unfold arrive inspectorExits
  dsimp only
  split_ifs <;> exact ⟨rfl, rfl, rfl⟩

theorem atStationStep_currentStation (s : State) (inp : Input) :
    (atStationStep s inp).currentStation = s.currentStation := by
  unfold atStationStep boardPassenger deboardPassenger inspectorBoards depart
  dsimp only
  split_ifs <;> rfl

theorem reaches_next_station (s : State) (r1 r2 : Nat)
    (h : s.busAtStation = true ∧ 0 ≤ s.stationTimer ∨
      s.busAtStation = false ∧ s.busProgress = 0) :
    (run s [idle 10 r1, idle 7 r2]).currentStation = s.nextStation := by
  rcases h with ⟨h1, h2⟩ | ⟨h1, h2⟩
  · have e1 : s.stationTimer + 10 ≥ STATION_WAIT_TIME := by
      unfold STATION_WAIT_TIME; linarith
    have e2 : (0 : ℚ) + BUS_SPEED * 7 ≥ 1 := by norm_num [BUS_SPEED]
    have hstep : tick s (idle 10 r1) = depart { s with stationTimer := s.stationTimer + 10 } := by
      simp only [tick, h1, atStationStep, idle, if_true, Bool.false_eq_true, if_false,
        Bool.false_and, e1]
    have hstep2 : tick (depart { s with stationTimer := s.stationTimer + 10 }) (idle 7 r2)
        = arrive { depart { s with stationTimer := s.stationTimer + 10 } with
            busProgress := 0 + BUS_SPEED * 7 } r2 := by
      simp only [tick, depart, transitStep, idle, Bool.false_eq_true, if_false, e2, if_true]
    rw [run_cons, run_cons, run_nil, hstep, hstep2]
    exact (arrive_fields _ r2).2.2
  · have e2 : s.busProgress + BUS_SPEED * 10 ≥ 1 := by rw [h2]; norm_num [BUS_SPEED]
    have hstep : tick s (idle 10 r1)
        = arrive { s with busProgress := s.busProgress + BUS_SPEED * 10 } r1 := by
      simp only [tick, h1, transitStep, idle, Bool.false_eq_true, if_false, e2, if_true]
    obtain ⟨f1, _, f3⟩ := arrive_fields { s with busProgress := s.busProgress + BUS_SPEED * 10 } r1
    rw [run_cons, run_cons, run_nil, hstep]
    simp only [tick, f1, if_true]
    rw [atStationStep_currentStation, f3]

/-- C5: inspector round trip.  At a station `st` in `0..9` with `p` passengers
(`0 ≤ p ≤ 49`) and no inspector aboard, a frame in which only K was pressed gives
`passengers = p + 1`, `isInspectorInBus = true` and
`inspectorExitStation = (st + 1) % 10`.  After any further frames without input,
once the bus is at station `(st + 1) % 10` the inspector is gone, `passengers = p`,
`inspectorExitStation = -1` and `totalFines` has grown by a value in `[0, p]`,
whatever `rand()` returned.  The arrival does happen: an idle frame of 10 s
followed by one of 7 s brings the bus there. -/
theorem C5_inspector_round_trip (s : State) (st p : Int) (k : Input) (rest : List Input)
    (hst : 0 ≤ st ∧ st ≤ 9) (hp : 0 ≤ p ∧ p ≤ 49)
    (hA : s.busAtStation = true) (hc : s.currentStation = st)
    (hn : s.nextStation = Int.tmod (st + 1) NUM_STATIONS)
    (hpass : s.passengers = p) (hins : s.isInspectorInBus = false)
    (htimer : 0 ≤ s.stationTimer) (hkdt : 0 ≤ k.dt)
    (hk : k.keyKPressed = true ∧ k.leftMousePressed = false ∧ k.rightMousePressed = false)
    (hrest : ∀ i ∈ rest, i.leftMousePressed = false ∧ i.rightMousePressed = false ∧
      i.keyKPressed = false) :
    ((tick s k).passengers = p + 1 ∧ (tick s k).isInspectorInBus = true ∧
        (tick s k).inspectorExitStation = Int.tmod (st + 1) NUM_STATIONS) ∧
      ((run (tick s k) rest).currentStation = Int.tmod (st + 1) NUM_STATIONS →
        (run (tick s k) rest).isInspectorInBus = false ∧
        (run (tick s k) rest).passengers = p ∧
        (run (tick s k) rest).inspectorExitStation = -1 ∧
        s.totalFines ≤ (run (tick s k) rest).totalFines ∧
        (run (tick s k) rest).totalFines ≤ s.totalFines + p) ∧
      ∀ r1 r2 : Nat,
        (run (tick s k) [idle 10 r1, idle 7 r2]).currentStation
          = Int.tmod (st + 1) NUM_STATIONS := by
  obtain ⟨b1, b2, b3, b4, b5, b6, b7⟩ := inspector_boarding_tick s k hA hins hk.1 hk.2.1 hk.2.2
  rw [hc] at b1 b5
  rw [hn] at b2
  rw [hpass] at b4
  refine ⟨⟨b4, b3, b5⟩, fun harr => ?_, fun r1 r2 => ?_⟩
  · have hJ : RoundTrip st p s.totalFines (tick s k) := Or.inl ⟨b1, b2, b3, b4, b5, b6⟩
    rcases roundTrip_run st p s.totalFines hp.1 rest (tick s k) hrest hJ with hA | hB
    · exact absurd (hA.1.symm.trans harr).symm (tmod_succ_range st hst.1 hst.2).2.2
    · exact hB
  · rw [reaches_next_station (tick s k) r1 r2, b2]
    rcases b7 with ⟨c1, c2, _⟩ | ⟨c1, c2⟩
    · exact Or.inl ⟨c1, by rw [c2]; linarith⟩
    · exact Or.inr ⟨c1, c2⟩

/-- C5 at the spec's input: station 0, five passengers, K pressed in a frame of
1/75 s, then an idle frame of 10 s and one of 7 s with `rand() = 3`. -/
theorem C5_inspector_round_trip_witness :
    ((tick { init with passengers := 5 } pressK).passengers = 6 ∧
        (tick { init with passengers := 5 } pressK).isInspectorInBus = true ∧
        (tick { init with passengers := 5 } pressK).inspectorExitStation = 1) ∧
      (run (tick { init with passengers := 5 } pressK) [idle 10 3, idle 7 3]).currentStation
        = 1 ∧
      (run (tick { init with passengers := 5 } pressK) [idle 10 3, idle 7 3]).isInspectorInBus
        = false ∧
      (run (tick { init with passengers := 5 } pressK) [idle 10 3, idle 7 3]).passengers = 5 ∧
      (run (tick { init with passengers := 5 } pressK)
        [idle 10 3, idle 7 3]).inspectorExitStation = -1 ∧
      (run (tick { init with passengers := 5 } pressK) [idle 10 3, idle 7 3]).totalFines ≤ 5 :=
  have h := C5_inspector_round_trip { init with passengers := 5 } 0 5 pressK
    [idle 10 3, idle 7 3] (by decide) (by decide) rfl rfl (by decide) rfl rfl (le_refl 0)
    (by norm_num [pressK, FRAME_TIME]) ⟨rfl, rfl, rfl⟩ (by simp [idle])
  have harr := h.2.2 3 3
  have hres := h.2.1 harr
  ⟨h.1, harr, hres.1, hres.2.1, hres.2.2.1, hres.2.2.2.2⟩

theorem atStationStep_nextStation (s : State) (inp : Input) :
    (atStationStep s inp).nextStation = s.nextStation := by
  unfold atStationStep boardPassenger deboardPassenger inspectorBoards depart
  dsimp only
  split_ifs <;> rfl

theorem transitStep_inspector (s : State) (inp : Input)
    (hx : s.isInspectorInBus = true → s.inspectorExitStation = s.nextStation)
    (h : (transitStep s inp).isInspectorInBus = true) :
    s.isInspectorInBus = true ∧ (transitStep s inp).currentStation = s.currentStation := by
  obtain ⟨c, n, bp, a, t, ps, ins, tf, ex⟩ := s
  dsimp only at hx
  revert h
  simp only [transitStep, arrive, inspectorExits]
  split_ifs with h1 h2
  · intro h; simp at h
  · intro h
    dsimp only at h
    subst h
    simp [hx rfl] at h2
  · intro h; exact ⟨h, rfl⟩

theorem tracked_is_run (inputs : List Input) (g : State × Int) :
    (inputs.foldl tickTracked g).1 = run g.1 inputs := by
  induction inputs generalizing g with
  | nil => rfl
  | cons i is ih => exact ih (tickTracked g i)

theorem tracked_inv (inputs : List Input) (g : State × Int) (h : Inv g.1)
    (hb : g.1.isInspectorInBus = true → g.2 = g.1.currentStation) :
    Inv (inputs.foldl tickTracked g).1 ∧
      ((inputs.foldl tickTracked g).1.isInspectorInBus = true →
        (inputs.foldl tickTracked g).2 = (inputs.foldl tickTracked g).1.currentStation) := by
  induction inputs generalizing g with
  | nil => exact ⟨h, hb⟩
  | cons i is ih =>
    refine ih (tickTracked g i) (inv_tick g.1 i h) (fun hin => ?_)
    obtain ⟨s, b⟩ := g
    dsimp only [tickTracked] at hin ⊢
    dsimp only at h hb
    by_cases hA : s.busAtStation = true
    · have hcur : (tick s i).currentStation = s.currentStation := by
        simp only [tick, hA, if_true]; exact atStationStep_currentStation s i
      rw [hcur]
      cases hI : s.isInspectorInBus
      · simp [hin]
      · simp [hb hI]
    · have ht : tick s i = transitStep s i := by simp only [tick, hA]; rfl
      rw [ht] at hin ⊢
      obtain ⟨hI, hcur⟩ := transitStep_inspector s i h.in_exit hin
      rw [hcur]
      simp [hI, hb hI]

/-- C6: in every state reachable from the initial state, if the inspector is aboard
then `inspectorExitStation` is a station index in `0..9`, equal to
`(b + 1) % 10` and different from `b`, where `b` is the station at which the
inspector boarded; if the inspector is not aboard then
`inspectorExitStation = -1`. -/
theorem C6_inspector_exit_station (inputs : List Input) :
    (runTracked inputs).1 = run init inputs ∧
      ((run init inputs).isInspectorInBus = true →
        0 ≤ (run init inputs).inspectorExitStation ∧
        (run init inputs).inspectorExitStation ≤ 9 ∧
        (run init inputs).inspectorExitStation
          = Int.tmod ((runTracked inputs).2 + 1) NUM_STATIONS ∧
        (run init inputs).inspectorExitStation ≠ (runTracked inputs).2) ∧
      ((run init inputs).isInspectorInBus = false →
        (run init inputs).inspectorExitStation = -1) := by
  have hrun : (runTracked inputs).1 = run init inputs := tracked_is_run inputs (init, -1)
  obtain ⟨hinv, hb⟩ := tracked_inv inputs (init, -1) inv_init (fun h => by simp [init] at h)
  change Inv (runTracked inputs).1 at hinv
  change (runTracked inputs).1.isInspectorInBus = true →
    (runTracked inputs).2 = (runTracked inputs).1.currentStation at hb
  rw [hrun] at hinv hb
  refine ⟨hrun, fun hin => ?_, hinv.out_exit⟩
  have hr := tmod_succ_range _ hinv.cur_lo hinv.cur_hi
  rw [hb hin, hinv.in_exit hin, hinv.next_eq]
  exact ⟨hr.1, hr.2.1, rfl, hr.2.2⟩

theorem run_pressK_aboard : (run init [pressK]).isInspectorInBus = true :=
  (inspector_boarding_tick init pressK rfl rfl rfl rfl rfl).2.2.1

theorem run_trip_not_aboard :
    (run init [pressK, idle 10 0, idle 7 0]).isInspectorInBus = false := by
  obtain ⟨b1, b2, b3, b4, b5, b6, b7⟩ := inspector_boarding_tick init pressK rfl rfl rfl rfl rfl
  have h := roundTrip_run 0 0 0 (le_refl 0) [idle 10 0, idle 7 0] (tick init pressK)
    (by simp [idle]) (Or.inl ⟨b1, b2.trans (by decide), b3, b4, b5, b6⟩)
  have harr : (run (tick init pressK) [idle 10 0, idle 7 0]).currentStation = 1 := by
    rw [reaches_next_station (tick init pressK) 0 0]
    · exact b2
    · rcases b7 with ⟨c1, c2, _⟩ | ⟨c1, c2⟩
      · exact Or.inl ⟨c1, by rw [c2]; norm_num [init, pressK, FRAME_TIME]⟩
      · exact Or.inr ⟨c1, c2⟩
  rcases h with hA | hB
  · have := hA.1.symm.trans harr
    exact absurd this (by decide)
  · exact hB.1

/-- C6 at a concrete input: after the inspector boards at station 0 the exit
station is `(b + 1) % 10` and differs from `b`; after the bus has reached
station 1 it is `-1` again. -/
theorem C6_inspector_exit_station_witness :
    ((run init [pressK]).inspectorExitStation
          = Int.tmod ((runTracked [pressK]).2 + 1) NUM_STATIONS ∧
        (run init [pressK]).inspectorExitStation ≠ (runTracked [pressK]).2) ∧
      (run init [pressK, idle 10 0, idle 7 0]).inspectorExitStation = -1 :=
  have h := (C6_inspector_exit_station [pressK]).2.1 run_pressK_aboard
  ⟨⟨h.2.2.1, h.2.2.2⟩,
    (C6_inspector_exit_station [pressK, idle 10 0, idle 7 0]).2.2 run_trip_not_aboard⟩

theorem atStationStep_fines (s : State) (inp : Input) :
    (atStationStep s inp).totalFines = s.totalFines ∧
      (s.isInspectorInBus = true → (atStationStep s inp).isInspectorInBus = true) := by
  unfold atStationStep boardPassenger deboardPassenger inspectorBoards depart
  dsimp only
  split_ifs <;> exact ⟨rfl, fun h => by first | exact h | rfl⟩

theorem transitStep_fines (s : State) (inp : Input) :
    ((transitStep s inp).totalFines = s.totalFines ∧
        (s.isInspectorInBus = true → (transitStep s inp).isInspectorInBus = true)) ∨
      (s.isInspectorInBus = true ∧ (transitStep s inp).isInspectorInBus = false ∧
        (transitStep s inp).passengers = s.passengers - 1 ∧
        (transitStep s inp).totalFines = s.totalFines + fines (s.passengers - 1) inp.rand) := by
  unfold transitStep arrive inspectorExits
  dsimp only
  split_ifs with h1 h2
  · right
    simp only [Bool.and_eq_true] at h2
    exact ⟨h2.1, rfl, rfl, rfl⟩
  · left; exact ⟨rfl, fun h => h⟩
  · left; exact ⟨rfl, fun h => h⟩

theorem tick_fines (s : State) (inp : Input) :
    ((tick s inp).totalFines = s.totalFines ∧
        (s.isInspectorInBus = true → (tick s inp).isInspectorInBus = true)) ∨
      (s.isInspectorInBus = true ∧ (tick s inp).isInspectorInBus = false ∧
        (tick s inp).passengers = s.passengers - 1 ∧
        (tick s inp).totalFines = s.totalFines + fines (s.passengers - 1) inp.rand) := by
  unfold tick
  split_ifs
  · exact Or.inl (atStationStep_fines s inp)
  · exact transitStep_fines s inp

theorem emptyBusWithInspector_state :
    run init emptyBusWithInspector
      = { init with busAtStation := false, isInspectorInBus := true, inspectorExitStation := 1 } := by
  simp [run, emptyBusWithInspector, pressK, rightClick, idle, tick, atStationStep, init,
    deboardPassenger, inspectorBoards, depart, NUM_STATIONS, FRAME_TIME, STATION_WAIT_TIME,
    show Int.tmod 1 10 = 1 from rfl]
  norm_num

/-- Whenever the count left after the inspector's seat is freed is `r ≥ 0`, the
fines drawn lie in `[0, r]`, and they are `0` when `r = 0`. -/
theorem fines_within_remaining (r : Int) (rand : Nat) (hr : 0 ≤ r) :
    0 ≤ fines r rand ∧ fines r rand ≤ r ∧ (r = 0 → fines r rand = 0) := by
  have h0 := fines_nonneg r rand
  have h1 := fines_le_self r rand hr
  exact ⟨h0, h1, fun h => by omega⟩

/-- C9 (evaluation at the failing input): after `emptyBusWithInspector` the
inspector is aboard with `passengers = 0`; the arrival frame decrements the count
at line 396 to `r = -1` and draws `0` fines, so the fines drawn do not lie in
`[0, r]`. -/
theorem C9_fines_outside_remaining :
    (run init emptyBusWithInspector).isInspectorInBus = true ∧
      (tick (run init emptyBusWithInspector) (idle 7 0)).isInspectorInBus = false ∧
      (tick (run init emptyBusWithInspector) (idle 7 0)).passengers = -1 ∧
      ¬ (0 ≤ (tick (run init emptyBusWithInspector) (idle 7 0)).totalFines
            - (run init emptyBusWithInspector).totalFines ∧
          (tick (run init emptyBusWithInspector) (idle 7 0)).totalFines
            - (run init emptyBusWithInspector).totalFines
            ≤ (tick (run init emptyBusWithInspector) (idle 7 0)).passengers) := by
  rw [emptyBusWithInspector_state]
  simp [tick, transitStep, arrive, inspectorExits, fines, maxFines, idle, init, BUS_SPEED,
    NUM_STATIONS, show Int.tmod 2 10 = 2 from rfl]
  norm_num

/-- Facts about the fines of one frame, for every state: the draw `fines r rand` is
`≥ 0` and at most `max r 0`; `totalFines` never decreases; it changes only in a
frame in which the inspector leaves, and then by `fines r rand` with `r` the count
after the decrement of line 396; on every reachable state `totalFines ≥ 0`. -/
theorem tick_totalFines_facts (s : State) (inp : Input) (r : Int) (rand : Nat)
    (inputs : List Input) :
    (0 ≤ fines r rand ∧ fines r rand ≤ max r 0 ∧ (r ≤ 0 → fines r rand = 0)) ∧
      s.totalFines ≤ (tick s inp).totalFines ∧
      ((tick s inp).totalFines ≠ s.totalFines →
        s.isInspectorInBus = true ∧ (tick s inp).isInspectorInBus = false) ∧
      (s.isInspectorInBus = true → (tick s inp).isInspectorInBus = false →
        (tick s inp).passengers = s.passengers - 1 ∧
        (tick s inp).totalFines
          = s.totalFines + fines (tick s inp).passengers inp.rand) ∧
      0 ≤ (run init inputs).totalFines := by
  have hf0 := fines_nonneg r rand
  have hf1 := fines_le r rand
  have hm : maxFines r = max r 0 := by
    unfold maxFines
    split_ifs with h
    · exact (max_eq_left (le_of_lt h)).symm
    · exact (max_eq_right (not_lt.mp h)).symm
  refine ⟨⟨hf0, hm ▸ hf1, fun hr => ?_⟩, ?_, ?_, ?_, (inv_run inputs init inv_init).fines_lo⟩
  · have : maxFines r = 0 := by rw [hm]; exact max_eq_right hr
    omega
  · rcases tick_fines s inp with ⟨h, _⟩ | ⟨_, _, _, h⟩
    · exact le_of_eq h.symm
    · have := fines_nonneg (s.passengers - 1) inp.rand
      omega
  · intro hne
    rcases tick_fines s inp with ⟨h, _⟩ | ⟨h1, h2, _, _⟩
    · exact absurd h hne
    · exact ⟨h1, h2⟩
  · intro hin hout
    rcases tick_fines s inp with ⟨_, h⟩ | ⟨_, _, h3, h4⟩
    · rw [h hin] at hout; exact absurd hout (by decide)
    · exact ⟨h3, by rw [h3]; exact h4⟩

/-- The facts above at a concrete input: with the inspector and five passengers
aboard, the arrival at the exit station with `rand() = 7` draws `7 % 6 = 1` fine. -/
theorem tick_totalFines_facts_example :
    (0 ≤ fines 5 7 ∧ fines 5 7 ≤ max 5 0) ∧
      inspectorRide.totalFines ≤ (tick inspectorRide (idle 7 7)).totalFines :=
  have h := tick_totalFines_facts inspectorRide (idle 7 7) 5 7 []
  ⟨⟨h.1.1, h.1.2.1⟩, h.2.1⟩

theorem progressInv_init : ProgressInv init :=
  ⟨fun _ => Or.inl rfl, fun h => by simp [init] at h⟩

theorem atStationStep_progress (s : State) (inp : Input) :
    ((atStationStep s inp).busAtStation = s.busAtStation ∧
        (atStationStep s inp).busProgress = s.busProgress) ∨
      ((atStationStep s inp).busAtStation = false ∧ (atStationStep s inp).busProgress = 0) := by
  unfold atStationStep boardPassenger deboardPassenger inspectorBoards depart
  dsimp only
  split_ifs <;> first | exact Or.inl ⟨rfl, rfl⟩ | exact Or.inr ⟨rfl, rfl⟩

theorem transitStep_progress (s : State) (inp : Input) :
    ((transitStep s inp).busAtStation = true ∧ (transitStep s inp).busProgress = 1) ∨
      ((transitStep s inp).busAtStation = s.busAtStation ∧
        (transitStep s inp).busProgress = s.busProgress + BUS_SPEED * inp.dt ∧
        s.busProgress + BUS_SPEED * inp.dt < 1) := by
  unfold transitStep arrive inspectorExits
  dsimp only
  split_ifs with h1 h2
  · exact Or.inl ⟨rfl, rfl⟩
  · exact Or.inl ⟨rfl, rfl⟩
  · exact Or.inr ⟨rfl, rfl, lt_of_not_ge h1⟩

theorem progressInv_tick (s : State) (inp : Input) (hdt : 0 ≤ inp.dt) (h : ProgressInv s) :
    ProgressInv (tick s inp) := by
  obtain ⟨hA, hT⟩ := h
  unfold tick
  split_ifs with hs
  · rcases atStationStep_progress s inp with ⟨e1, e2⟩ | ⟨e1, e2⟩
    · exact ⟨fun _ => e2 ▸ hA hs, fun hf => by rw [e1, hs] at hf; exact absurd hf (by decide)⟩
    · exact ⟨fun ht => by rw [e1] at ht; exact absurd ht (by decide),
        fun _ => by rw [e2]; exact ⟨le_refl 0, zero_lt_one⟩⟩
  · have hs2 : s.busAtStation = false := by simpa using hs
    obtain ⟨h0, _⟩ := hT hs2
    rcases transitStep_progress s inp with ⟨e1, e2⟩ | ⟨e1, e2, e3⟩
    · exact ⟨fun _ => Or.inr e2, fun hf => by rw [e1] at hf; exact absurd hf (by decide)⟩
    · refine ⟨fun ht => by rw [e1, hs2] at ht; exact absurd ht (by decide), fun _ => ?_⟩
      rw [e2]
      have : 0 ≤ BUS_SPEED * inp.dt := mul_nonneg (by norm_num [BUS_SPEED]) hdt
      exact ⟨by linarith, e3⟩

theorem progressInv_run (inputs : List Input) (s : State) (hdt : ∀ i ∈ inputs, 0 ≤ i.dt)
    (h : ProgressInv s) : ProgressInv (run s inputs) := by
  induction inputs generalizing s with
  | nil => exact h
  | cons i is ih =>
    exact ih (tick s i) (fun j hj => hdt j (List.mem_cons_of_mem _ hj))
      (progressInv_tick s i (hdt i (List.mem_cons_self _ _)) h)

theorem run_idle10 : run init [idle 10 0] = depart { init with stationTimer := 10 } := by
  simp [run, tick, atStationStep, init, idle, depart, STATION_WAIT_TIME]

theorem run_idle10_idle7 :
    run init [idle 10 0, idle 7 0]
      = { init with currentStation := 1, nextStation := 2, busProgress := 1 } := by
  rw [show [idle 10 0, idle 7 0] = [idle 10 0] ++ [idle 7 0] from rfl, run_snoc, run_idle10]
  simp [tick, transitStep, arrive, init, idle, depart, BUS_SPEED, NUM_STATIONS,
    show Int.tmod 1 10 = 1 from rfl, show Int.tmod 2 10 = 2 from rfl]
  norm_num

/-- C10 (counterexample): the equivalence fails in both directions on reachable
states.  After an idle frame of 10 s the bus is in Transit with `busProgress = 0`;
after a further idle frame of 7 s it is AtStation with `busProgress = 1`. -/
theorem C10_at_station_iff_fails :
    ¬ ((run init [idle 10 0]).busAtStation = true ↔ (run init [idle 10 0]).busProgress = 0) ∧
      ¬ ((run init [idle 10 0, idle 7 0]).busAtStation = true ↔
          (run init [idle 10 0, idle 7 0]).busProgress = 0) := by
  rw [run_idle10, run_idle10_idle7]
  constructor
  · simp [depart]
  · simp [init]

/-- C10 (amended): in every state reachable from the initial state by frames with
`dt ≥ 0`, if `busAtStation` is true then `busProgress` is `0` or `1`, and if
`busAtStation` is false then `0 ≤ busProgress < 1`. -/
theorem C10_progress_by_mode (inputs : List Input) (hdt : ∀ i ∈ inputs, 0 ≤ i.dt) :
    ((run init inputs).busAtStation = true →
        (run init inputs).busProgress = 0 ∨ (run init inputs).busProgress = 1) ∧
      ((run init inputs).busAtStation = false →
        0 ≤ (run init inputs).busProgress ∧ (run init inputs).busProgress < 1) :=
  progressInv_run inputs init hdt progressInv_init

/-- C10 at a concrete input: the run of an idle frame of 10 s and one of 7 s. -/
theorem C10_progress_by_mode_witness :
    (∀ i ∈ [idle 10 0, idle 7 0], 0 ≤ i.dt) ∧
      ((run init [idle 10 0, idle 7 0]).busProgress = 0 ∨
        (run init [idle 10 0, idle 7 0]).busProgress = 1) :=
  have hdt : ∀ i ∈ [idle 10 0, idle 7 0], 0 ≤ i.dt := by simp [idle]
  ⟨hdt, (C10_progress_by_mode [idle 10 0, idle 7 0] hdt).1 (by rw [run_idle10_idle7]; rfl)⟩

/-! ## Geometry -/

theorem control_divisors_nonzero (sqrtf sinf : ℚ → ℚ) (p0 p2 : Vec2) (i : Int) :
    ∀ d ∈ (pathControl sqrtf sinf p0 p2 i).divisors, d ≠ 0 := by
  intro d hd
  unfold pathControl at hd
  dsimp only at hd
  split_ifs at hd with h
  · simp only [List.cons_append, List.nil_append, List.mem_cons, List.mem_singleton,
      List.mem_nil_iff, or_false] at hd
    have hpos : (0 : ℚ) < 1 / 10000 := by norm_num
    rcases hd with rfl | rfl | rfl | rfl
    · exact ne_of_gt (lt_trans hpos h)
    · exact ne_of_gt (lt_trans hpos h)
    · norm_num
    · norm_num
  · simp only [List.nil_append, List.mem_cons, List.mem_singleton, List.mem_nil_iff,
      or_false] at hd
    rcases hd with rfl | rfl <;> norm_num

/-- C7 (counterexample): for endpoints `(0, 0)` and `(0.00003, 0.00004)`, at distance
`0.00005 < 0.0001`, and segment index 0, the normal used is `(-0.00004, 0.00003)`, not
the zero vector, and the control point is not the midpoint. -/
theorem C7_degenerate_normal_not_zero :
    (pathControl Rat.sqrt sinTaylor ⟨0, 0⟩ ⟨3 / 100000, 4 / 100000⟩ 0).dist < 1 / 10000 ∧
      (pathControl Rat.sqrt sinTaylor ⟨0, 0⟩ ⟨3 / 100000, 4 / 100000⟩ 0).normal
        = ⟨-4 / 100000, 3 / 100000⟩ ∧
      (pathControl Rat.sqrt sinTaylor ⟨0, 0⟩ ⟨3 / 100000, 4 / 100000⟩ 0).normal ≠ ⟨0, 0⟩ ∧
      (pathControl Rat.sqrt sinTaylor ⟨0, 0⟩ ⟨3 / 100000, 4 / 100000⟩ 0).controlPoint
        ≠ (pathControl Rat.sqrt sinTaylor ⟨0, 0⟩ ⟨3 / 100000, 4 / 100000⟩ 0).midPoint := by
  have hs : Rat.sqrt ((3 / 100000 - 0) * (3 / 100000 - 0) + (4 / 100000 - 0) * (4 / 100000 - 0))
      = 5 / 100000 := by
    have e : ((3 / 100000 - 0) * (3 / 100000 - 0) + (4 / 100000 - 0) * (4 / 100000 - 0) : ℚ)
        = (5 / 100000) * (5 / 100000) := by norm_num
    rw [e, Rat.sqrt_eq]
    norm_num [abs_of_pos]
  have hlt : ¬ ((5 : ℚ) / 100000 > 1 / 10000) := by norm_num
  simp only [pathControl, hs, hlt, if_false]
  refine ⟨by norm_num, ?_, ?_, ?_⟩
  · norm_num
  · intro h
    have := congrArg Vec2.y h
    norm_num at this
  · intro h
    have := congrArg Vec2.x h
    norm_num [sinTaylor] at this

/-- C7 (amended): when the distance between the endpoints is below `0.0001`, the
control-point rule, at both places and for every segment index, does not divide
by the distance (its only divisors are the two constants `2` of the midpoint), the
normal it uses is the unnormalised perpendicular `(-dy, dx)`, and the control
point is `midPoint + normal * curvature * curveDir`; when the endpoints coincide
the normal is `(0, 0)` and the control point is the midpoint. -/
theorem C7_degenerate_segment (sqrtf sinf : ℚ → ℚ) (p0 p2 : Vec2) (i : Int)
    (h : sqrtf ((p2.x - p0.x) * (p2.x - p0.x) + (p2.y - p0.y) * (p2.y - p0.y)) < 1 / 10000) :
    (pathControl sqrtf sinf p0 p2 i).divisors = [2, 2] ∧
      (∀ d ∈ (pathControl sqrtf sinf p0 p2 i).divisors, d ≠ 0) ∧
      (pathControl sqrtf sinf p0 p2 i).normal = ⟨-(p2.y - p0.y), p2.x - p0.x⟩ ∧
      (pathControl sqrtf sinf p0 p2 i).controlPoint
        = ⟨(p0.x + p2.x) / 2
              + -(p2.y - p0.y) * (pathControl sqrtf sinf p0 p2 i).curvature
                * (pathControl sqrtf sinf p0 p2 i).curveDir,
            (p0.y + p2.y) / 2
              + (p2.x - p0.x) * (pathControl sqrtf sinf p0 p2 i).curvature
                * (pathControl sqrtf sinf p0 p2 i).curveDir⟩ ∧
      (p0 = p2 →
        (pathControl sqrtf sinf p0 p2 i).normal = ⟨0, 0⟩ ∧
        (pathControl sqrtf sinf p0 p2 i).controlPoint
          = (pathControl sqrtf sinf p0 p2 i).midPoint) ∧
      busControl sqrtf sinf p0 p2 i = pathControl sqrtf sinf p0 p2 i := by
  have hlt : ¬ (sqrtf ((p2.x - p0.x) * (p2.x - p0.x) + (p2.y - p0.y) * (p2.y - p0.y))
      > 1 / 10000) := not_lt.mpr (le_of_lt h)
  have hnz := control_divisors_nonzero sqrtf sinf p0 p2 i
  refine ⟨?_, hnz, ?_, ?_, ?_, rfl⟩
  · simp only [pathControl, hlt, if_false, List.nil_append]
  · simp only [pathControl, hlt, if_false]
  · simp only [pathControl, hlt, if_false]
  · intro he
    subst he
    simp only [sub_self, mul_zero, add_zero] at hlt
    simp only [pathControl, sub_self, mul_zero, hlt, if_false, neg_zero, zero_mul, add_zero,
      and_self]

/-- C7 at a concrete input: coinciding endpoints `(0.5, 0.5)`, with a square root
that is exact on squares. -/
theorem C7_degenerate_segment_witness :
    (pathControl Rat.sqrt sinTaylor ⟨1 / 2, 1 / 2⟩ ⟨1 / 2, 1 / 2⟩ 4).divisors = [2, 2] ∧
      (pathControl Rat.sqrt sinTaylor ⟨1 / 2, 1 / 2⟩ ⟨1 / 2, 1 / 2⟩ 4).controlPoint
        = (pathControl Rat.sqrt sinTaylor ⟨1 / 2, 1 / 2⟩ ⟨1 / 2, 1 / 2⟩ 4).midPoint :=
  have h := C7_degenerate_segment Rat.sqrt sinTaylor ⟨1 / 2, 1 / 2⟩ ⟨1 / 2, 1 / 2⟩ 4
    (by
      have e : (((1 : ℚ) / 2 - 1 / 2) * (1 / 2 - 1 / 2) + (1 / 2 - 1 / 2) * (1 / 2 - 1 / 2))
          = 0 * 0 := by norm_num
      show Rat.sqrt ((1 / 2 - 1 / 2) * (1 / 2 - 1 / 2) + (1 / 2 - 1 / 2) * (1 / 2 - 1 / 2))
        < 1 / 10000
      rw [e, Rat.sqrt_eq]
      norm_num)
  ⟨h.1, (h.2.2.2.2.1 rfl).2⟩

theorem length_flatMap_range {α : Type} (f : Nat → List α) (k n : Nat)
    (hlen : ∀ i, (f i).length = k) : ((List.range n).flatMap f).length = n * k := by
  induction n with
  | zero => simp
  | succ m ih =>
    rw [List.range_succ, List.flatMap_append, List.length_append, ih]
    simp [hlen, Nat.succ_mul]

theorem getElem_flatMap_range {α : Type} (f : Nat → List α) (k n i j : Nat)
    (hlen : ∀ i, (f i).length = k) (hi : i < n) (hj : j < k) :
    ((List.range n).flatMap f)[i * k + j]? = (f i)[j]? := by
  induction n with
  | zero => omega
  | succ m ih =>
    rw [List.range_succ, List.flatMap_append]
    have hl := length_flatMap_range f k m hlen
    by_cases him : i < m
    · have hlt : i * k + j < ((List.range m).flatMap f).length := by
        rw [hl]
        calc i * k + j < i * k + k := by omega
          _ = (i + 1) * k := by rw [Nat.succ_mul]
          _ ≤ m * k := Nat.mul_le_mul_right k him
      rw [List.getElem?_append_left hlt]
      exact ih him
    · have hem : i = m := by omega
      subst hem
      rw [List.getElem?_append_right (by rw [hl]; omega), hl]
      simp [hj, hlen]

theorem segmentVertices_length (sqrtf sinf : ℚ → ℚ) (i : Nat) :
    (segmentVertices sqrtf sinf i).length = 62 := by
  unfold segmentVertices
  dsimp only
  exact length_flatMap_range _ 2 31 (fun _ => rfl)

theorem pathVertex_eq (sqrtf sinf : ℚ → ℚ) (i j : Nat) (hi : i < 10) (hj : j ≤ 30) :
    pathVertex sqrtf sinf i j
      = some (bezierQuadratic (stationPosition i)
          (pathControl sqrtf sinf (stationPosition i)
            (stationPosition (Int.tmod ((i : Int) + 1) NUM_STATIONS)) i).controlPoint
          (stationPosition (Int.tmod ((i : Int) + 1) NUM_STATIONS)) ((j : ℚ) / 30)) := by
  have hx : (pathVertices sqrtf sinf)[2 * (i * 31 + j)]?
      = (segmentVertices sqrtf sinf i)[j * 2 + 0]? := by
    rw [show 2 * (i * 31 + j) = i * 62 + (j * 2 + 0) by ring]
    exact getElem_flatMap_range _ 62 10 i _ (segmentVertices_length sqrtf sinf) hi (by omega)
  have hy : (pathVertices sqrtf sinf)[2 * (i * 31 + j) + 1]?
      = (segmentVertices sqrtf sinf i)[j * 2 + 1]? := by
    rw [show 2 * (i * 31 + j) + 1 = i * 62 + (j * 2 + 1) by ring]
    exact getElem_flatMap_range _ 62 10 i _ (segmentVertices_length sqrtf sinf) hi (by omega)
  unfold pathVertex
  rw [hx, hy]
  unfold segmentVertices
  dsimp only
  rw [getElem_flatMap_range _ 2 31 j 0 (by intro _; rfl) (by omega) (by omega),
    getElem_flatMap_range _ 2 31 j 1 (by intro _; rfl) (by omega) (by omega)]
  simp

/-- C8: for every segment index `i` in `0..9`, the control point the bus placement
computes in Transit with `currentStation = i` and `nextStation = (i + 1) % 10` is
the one `setupPathVAO` computes for segment `i`, with the same distance, normal,
curvature `0.12 + 0.08 * sin(0.7 * i)`, direction (`-1` iff `i % 3 = 0`), midpoint
and divisors; the bus position at `busProgress = t` is
`bezierQuadratic(p0, c_i, p2, t)`, and at `t = j / 30` with `j` in `0..30` it is
vertex `j` of the line strip of segment `i`. -/
theorem C8_bus_position_on_route (sqrtf sinf : ℚ → ℚ) (i : Nat) (hi : i < 10) (s : State)
    (hT : s.busAtStation = false) (hc : s.currentStation = i)
    (hn : s.nextStation = Int.tmod ((i : Int) + 1) NUM_STATIONS) :
    busControl sqrtf sinf (stationPosition s.currentStation) (stationPosition s.nextStation)
        s.currentStation
      = pathControl sqrtf sinf (stationPosition i)
          (stationPosition (Int.tmod ((i : Int) + 1) NUM_STATIONS)) i ∧
    (pathControl sqrtf sinf (stationPosition i)
        (stationPosition (Int.tmod ((i : Int) + 1) NUM_STATIONS)) i).curvature
      = 12 / 100 + 8 / 100 * sinf (7 / 10 * (i : ℚ)) ∧
    ((pathControl sqrtf sinf (stationPosition i)
        (stationPosition (Int.tmod ((i : Int) + 1) NUM_STATIONS)) i).curveDir = -1
      ↔ i % 3 = 0) ∧
    busPos sqrtf sinf s
      = bezierQuadratic (stationPosition i)
          (pathControl sqrtf sinf (stationPosition i)
            (stationPosition (Int.tmod ((i : Int) + 1) NUM_STATIONS)) i).controlPoint
          (stationPosition (Int.tmod ((i : Int) + 1) NUM_STATIONS)) s.busProgress ∧
    (∀ j : Nat, j ≤ 30 → s.busProgress = (j : ℚ) / 30 →
      pathVertex sqrtf sinf i j = some (busPos sqrtf sinf s)) := by
  have hpos : busPos sqrtf sinf s
      = bezierQuadratic (stationPosition i)
          (pathControl sqrtf sinf (stationPosition i)
            (stationPosition (Int.tmod ((i : Int) + 1) NUM_STATIONS)) i).controlPoint
          (stationPosition (Int.tmod ((i : Int) + 1) NUM_STATIONS)) s.busProgress := by
    simp only [busPos, hT, hc, hn, Bool.false_eq_true, if_false]
    rfl
  refine ⟨by rw [hc, hn]; rfl, ?_, ?_, hpos, fun j hj hp => ?_⟩
  · simp only [pathControl, Int.cast_natCast, mul_comm]
  · have h3 : Int.tmod (i : Int) 3 = 0 ↔ i % 3 = 0 := by
      rw [Int.tmod_eq_emod (by omega) (by decide)]
      omega
    simp only [pathControl]
    split_ifs with h
    · exact ⟨fun _ => h3.mp h, fun _ => rfl⟩
    · exact ⟨fun hh => by norm_num at hh, fun hh => absurd (h3.mpr hh) h⟩
  · rw [pathVertex_eq sqrtf sinf i j hi hj, hpos, hp]

/-- C8 at a concrete input: on segment 3, one third of the way (`j = 10`), with a
square root exact on squares and a rational stand-in for `sin`. -/
theorem C8_bus_position_on_route_witness :
    pathVertex Rat.sqrt sinTaylor 3 10
      = some (busPos Rat.sqrt sinTaylor
          { init with busAtStation := false, currentStation := 3, nextStation := 4,
                      busProgress := 1 / 3 }) :=
  (C8_bus_position_on_route Rat.sqrt sinTaylor 3 (by decide)
    { init with busAtStation := false, currentStation := 3, nextStation := 4,
                busProgress := 1 / 3 } rfl rfl (by decide)).2.2.2.2 10 (by decide)
    (by norm_num)

/-! ## Passenger count digits -/

theorem digits_of_range (p : Int) (hlo : -1 ≤ p) (hhi : p ≤ 51) :
    Int.tdiv p 10 * 10 + Int.tmod p 10 = p ∧
      0 ≤ Int.tdiv p 10 ∧ Int.tdiv p 10 ≤ 5 ∧
      -1 ≤ Int.tmod p 10 ∧ Int.tmod p 10 ≤ 9 ∧
      (0 ≤ p → 0 ≤ Int.tmod p 10) := by
  by_cases h : 0 ≤ p
  · have e1 : Int.tdiv p 10 = p / 10 := Int.tdiv_eq_ediv h (by decide)
    have e2 : Int.tmod p 10 = p % 10 := Int.tmod_eq_emod h (by decide)
    rw [e1, e2]
    omega
  · have hp : p = -1 := by omega
    subst hp
    decide

theorem digits_reachable (inputs : List Input) :
    (passengerDigits (run init inputs)).1 * 10 + (passengerDigits (run init inputs)).2
        = (run init inputs).passengers ∧
      validDigitIndex (passengerDigits (run init inputs)).1 = true ∧
      (0 ≤ (run init inputs).passengers →
        validDigitIndex (passengerDigits (run init inputs)).2 = true) := by
  have hinv := inv_run inputs init inv_init
  have hr : -1 ≤ (run init inputs).passengers ∧ (run init inputs).passengers ≤ 51 := by
    cases hI : (run init inputs).isInspectorInBus
    · have := hinv.out_pass hI; omega
    · have := hinv.in_pass hI; omega
  obtain ⟨h1, h2, h3, _, h5, h6⟩ := digits_of_range _ hr.1 hr.2
  refine ⟨h1, ?_, fun hp => ?_⟩
  · simp only [validDigitIndex, passengerDigits, Bool.and_eq_true, decide_eq_true_eq]
    omega
  · have := h6 hp
    simp only [validDigitIndex, passengerDigits, Bool.and_eq_true, decide_eq_true_eq]
    omega

theorem run_underflowInputs :
    run init underflowInputs
      = { init with currentStation := 1, nextStation := 2, busProgress := 1,
                    passengers := -1 } := by
  rw [show underflowInputs = emptyBusWithInspector ++ [idle 7 0] from rfl, run_snoc,
    emptyBusWithInspector_state]
  simp [tick, transitStep, arrive, inspectorExits, fines, maxFines, idle, init, BUS_SPEED,
    NUM_STATIONS, show Int.tmod 2 10 = 2 from rfl]
  norm_num

/-- C11 (evaluation at the failing input): after `underflowInputs` the bus is at
station 1 with `passengers = -1`; the digits the display derives are `tens = 0`
and `ones = -1`, and `-1` is not an index of the 10-entry digit table. -/
theorem C11_ones_digit_out_of_table :
    (run init underflowInputs).passengers = -1 ∧
      passengerDigits (run init underflowInputs) = (0, -1) ∧
      validDigitIndex (passengerDigits (run init underflowInputs)).2 = false := by
  rw [run_underflowInputs]
  refine ⟨rfl, ?_, ?_⟩ <;> simp [passengerDigits, init, validDigitIndex] <;> decide

end BusSim
